import Mathlib

/-!
Verification of the midnight-preview-indexer ingestion pipeline.

This file gives a shallow embedding, in Lean, of the store-facing logic of
the indexer: the per-block import transactions, the block/balance/contract
upserts, the UTXO resolver queries, and the gap-detection helpers.  Each
definition mirrors one function or SQL statement of the TypeScript source
(`src/midnight-importer.ts`, `src/midnight-indexer.ts`, and the raw indexer
module containing `indexBlock` / `updateAccountsAndRelatedTables`), with
rows modelled as lists of records and upserts as keyed list updates.
-/

namespace MidnightIndexer

/-! ## Account balance snapshots (`updateAccountsAndRelatedTables`, step 3)

The source reads the previous balance with
`SELECT balance FROM account_balances WHERE account_id = $1 AND asset_id = $2
 ORDER BY block_id DESC LIMIT 1`,
applies the net movement of the transaction for that account, and upserts the
snapshot keyed by `(account_id, asset_id, block_id)`. -/

/-- One row of the `account_balances` table. -/
structure BalanceRow where
  accountId : Nat
  assetId : String
  blockId : Nat
  balance : Int
deriving Repr, DecidableEq

/-- Embeds the previous-balance query: among the rows for the given account and
asset, take the one with the greatest `block_id` (the `ORDER BY block_id DESC
LIMIT 1` of the source, which has no upper bound on `block_id`); the balance is
0 when there is no such row. -/
def latestBalance (rows : List BalanceRow) (accountId : Nat) (assetId : String) : Int :=
  let filtered := rows.filter (fun r => r.accountId == accountId && r.assetId == assetId)
  match filtered.foldl (fun acc r =>
    match acc with
    | none => some r
    | some b => if b.blockId < r.blockId then some r else some b) none with
  | none => 0
  | some r => r.balance

/-- Net application of one account-transaction record to a balance: direction 1
(in) adds the value, direction 2 (out) subtracts it, direction 3 (self) does
both. -/
def applyTxDirection (bal : Int) (direction : Nat) (value : Int) : Int :=
  let b1 := if direction == 1 || direction == 3 then bal + value else bal
  if direction == 2 || direction == 3 then b1 - value else b1

/-- Upsert into `account_balances`, keyed by `(account_id, asset_id, block_id)`
(`ON CONFLICT ... DO UPDATE SET balance = EXCLUDED.balance`). -/
def upsertBalanceRow (rows : List BalanceRow) (r : BalanceRow) : List BalanceRow :=
  if rows.any (fun b => b.accountId == r.accountId && b.assetId == r.assetId
      && b.blockId == r.blockId) then
    rows.map (fun b =>
      if b.accountId == r.accountId && b.assetId == r.assetId && b.blockId == r.blockId
      then { b with balance := r.balance } else b)
  else rows ++ [r]

/-- Embeds step 3 of `updateAccountsAndRelatedTables` for one account: read the
latest snapshot for `(account, MID)`, apply this transaction, and upsert the
snapshot for this block. -/
def updateAccountBalance (rows : List BalanceRow) (accountId blockId : Nat)
    (direction : Nat) (value : Int) : List BalanceRow :=
  let prev := latestBalance rows accountId "MID"
  upsertBalanceRow rows ⟨accountId, "MID", blockId, applyTxDirection prev direction value⟩

/-! ## Ledger-source query (`getBlockByHeight` in `midnight-indexer.ts`) -/

/-- Minimal view of a block returned by the GraphQL ledger source. -/
structure GqlBlock where
  height : Nat
  hash : String
deriving Repr, DecidableEq

/-- Embeds `getBlockByHeight`: the GraphQL request either succeeds with an
optional block or fails; the `catch` clause returns `null` on any error. -/
def getBlockByHeightResult (resp : Except String (Option GqlBlock)) : Option GqlBlock :=
  match resp with
  | .ok b => b
  | .error _ => none

/-- What the finalized-head handler does with the ledger-source answer for a
height: import the block when present, otherwise queue the height for retry
(`importFinalizedBlock`, the `if (graphqlBlock) ... else ... push` branch). -/
inductive FinalizedHandlerAction where
  | importBlock (b : GqlBlock)
  | queueForRetry
deriving Repr, DecidableEq

/-- The finalized-head handler branches only on whether the result is null. -/
def finalizedHandlerStep (r : Option GqlBlock) : FinalizedHandlerAction :=
  match r with
  | some b => .importBlock b
  | none => .queueForRetry

/-! ## Gap detection (`getMinBlockHeight`, `getMaxBlockHeight`,
`detectAndImportMissingBlocks` in `midnight-importer.ts`) -/

/-- `SELECT MAX(height) FROM blocks`: none on an empty table. -/
def sqlMaxHeight (hs : List Nat) : Option Nat :=
  hs.foldl (fun acc h =>
    match acc with
    | none => some h
    | some m => some (max m h)) none

/-- `SELECT MIN(height) FROM blocks`: none on an empty table. -/
def sqlMinHeight (hs : List Nat) : Option Nat :=
  hs.foldl (fun acc h =>
    match acc with
    | none => some h
    | some m => some (min m h)) none

/-- Embeds `getMaxBlockHeight`: the JavaScript guard `if (!maxHeight) return 0`
maps both a null result (empty table) and a genuine height 0 to 0. -/
def getMaxBlockHeight (hs : List Nat) : Nat :=
  match sqlMaxHeight hs with
  | none => 0
  | some v => if v == 0 then 0 else v

/-- Embeds `getMinBlockHeight`, with the same falsy-to-zero guard. -/
def getMinBlockHeight (hs : List Nat) : Nat :=
  match sqlMinHeight hs with
  | none => 0
  | some v => if v == 0 then 0 else v

/-- Embeds the detection phase of `detectAndImportMissingBlocks`: when either
extreme height reads as 0 the function returns 0 without running the
`generate_series` scan (`none` here); otherwise it computes the heights of
`[min, max]` absent from the table. -/
def detectMissingScan (hs : List Nat) : Option (List Nat) :=
  let minH := getMinBlockHeight hs
  let maxH := getMaxBlockHeight hs
  if minH == 0 || maxH == 0 then none
  else some (((List.range (maxH + 1)).filter (fun h => minH ≤ h)).filter (fun h => ¬ h ∈ hs))

/-! ## Contract actions and balances (`insertContractActions`,
`insertContractActionBalance`, migration `0024_create_tx_contract_actions.sql`) -/

/-- One element of a GraphQL `unshieldedBalances` list. -/
structure GqlBalance where
  typename : String
  tokenType : String
  amount : Int
deriving Repr, DecidableEq

/-- One element of a GraphQL `contractActions` list. -/
structure GqlContractAction where
  typename : String
  entryPoint : Option String
  address : String
  balances : List GqlBalance
deriving Repr, DecidableEq

/-- `isContractCall`: discriminates on the GraphQL `__typename`. -/
def isContractCallAction (a : GqlContractAction) : Bool :=
  a.typename == "ContractCall"

/-- `isContractBalance`: discriminates on the GraphQL `__typename`. -/
def isContractBalanceEntry (b : GqlBalance) : Bool :=
  b.typename == "ContractBalance"

/-- One row of `tx_contract_actions`. -/
structure ContractActionRow where
  rowId : Nat
  txId : Nat
  indexInTx : Nat
  typeName : String
  entryPoint : Option String
  address : String
deriving Repr, DecidableEq

/-- One row of `tx_contract_action_balances`.  Per the migration, the unique
index is on `(tx_contract_action_id, type_name)`. -/
structure ContractBalanceRow where
  contractActionId : Nat
  typeName : String
  tokenType : String
  amount : Int
deriving Repr, DecidableEq

/-- Upsert into `tx_contract_actions`, keyed by `(tx_id, index_in_tx)`;
fresh rows receive the next serial id.  Returns the row id, mirroring
`RETURNING id`. -/
def upsertContractAction (rows : List ContractActionRow) (txId idx : Nat)
    (a : GqlContractAction) : List ContractActionRow × Nat :=
  match rows.find? (fun r => r.txId == txId && r.indexInTx == idx) with
  | some r =>
      (rows.map (fun r0 =>
        if r0.txId == txId && r0.indexInTx == idx then
          { r0 with typeName := a.typename, entryPoint := a.entryPoint, address := a.address }
        else r0), r.rowId)
  | none =>
      let newId := rows.length + 1
      (rows ++ [⟨newId, txId, idx, a.typename, a.entryPoint, a.address⟩], newId)

/-- Embeds `insertContractActionBalance`: upsert keyed by
`(tx_contract_action_id, type_name)` — the `type_name` column holds the GraphQL
`__typename` of the balance, and the conflict clause overwrites `amount` and
`token_type`. -/
def upsertContractActionBalance (rows : List ContractBalanceRow) (actionId : Nat)
    (b : GqlBalance) : List ContractBalanceRow :=
  if rows.any (fun r => r.contractActionId == actionId && r.typeName == b.typename) then
    rows.map (fun r =>
      if r.contractActionId == actionId && r.typeName == b.typename
      then { r with amount := b.amount, tokenType := b.tokenType } else r)
  else rows ++ [⟨actionId, b.typename, b.tokenType, b.amount⟩]

/-- Embeds `insertContractActionBalances`: every balance entry of the action
that passes `isContractBalance` is upserted. -/
def insertContractActionBalances (rows : List ContractBalanceRow) (actionId : Nat)
    (a : GqlContractAction) : List ContractBalanceRow :=
  a.balances.foldl (fun rs b =>
    if isContractBalanceEntry b then upsertContractActionBalance rs actionId b else rs) rows

/-- Inner loop of `insertContractActions`: non-call actions are skipped (the
index counter advances only for calls), each call is upserted and its balances
inserted under the returned action id. -/
def insertContractActionsGo (state : List ContractActionRow × List ContractBalanceRow)
    (txId idx : Nat) : List GqlContractAction → List ContractActionRow × List ContractBalanceRow
  | [] => state
  | a :: rest =>
      if isContractCallAction a then
        let (actionRows, actionId) := upsertContractAction state.1 txId idx a
        let balanceRows := insertContractActionBalances state.2 actionId a
        insertContractActionsGo (actionRows, balanceRows) txId (idx + 1) rest
      else
        insertContractActionsGo state txId idx rest

/-- Embeds `insertContractActions` for one transaction. -/
def insertContractActions (actionRows : List ContractActionRow)
    (balanceRows : List ContractBalanceRow) (txId : Nat)
    (actions : List GqlContractAction) : List ContractActionRow × List ContractBalanceRow :=
  insertContractActionsGo (actionRows, balanceRows) txId 0 actions

/-- A contract call carrying entry point "swap" and two balances of distinct
token types, as in the C8 scenario. -/
def swapAction : GqlContractAction :=
  ⟨"ContractCall", some "swap", "addr1",
    [⟨"ContractBalance", "tokenA", 10⟩, ⟨"ContractBalance", "tokenB", 20⟩]⟩

/-! ## Batch import transactions (`processBatch` in `midnight-importer.ts`)

`processBatch` opens one store transaction, then for every height of the batch
runs `insertBlock` followed by `insertGraphQLBlock`, and commits; any error
triggers a ROLLBACK of that whole transaction.  `processBlock h` is
`processBatch [h]`. -/

/-- The store writes issued for one height inside `processBatch`. -/
inductive SqlWrite where
  | chainBlockWrite (h : Nat)
  | ledgerBlockWrite (h : Nat)
deriving Repr, DecidableEq

/-- `insertBlock` then `insertGraphQLBlock` for one height. -/
def blockWrites (h : Nat) : List SqlWrite :=
  [.chainBlockWrite h, .ledgerBlockWrite h]

/-- All writes of one batch, in height order. -/
def batchWrites (heights : List Nat) : List SqlWrite :=
  (heights.map blockWrites).flatten

/-- Commands sent to the store. -/
inductive SqlCmd where
  | beginTxn
  | commitTxn
  | rollbackTxn
  | write (w : SqlWrite)
deriving Repr, DecidableEq

/-- The writes of the batch body, stopping with a ROLLBACK at the first write
the store fails, else ending with COMMIT (`fails` says which writes the store
rejects). -/
def emitWrites (fails : SqlWrite → Bool) : List SqlWrite → List SqlCmd
  | [] => [.commitTxn]
  | w :: ws => if fails w then [.rollbackTxn] else .write w :: emitWrites fails ws

/-- Embeds `processBatch heights`: BEGIN, the writes of every height of the
batch, COMMIT — or ROLLBACK at the first store failure. -/
def processBatchCmds (heights : List Nat) (fails : SqlWrite → Bool) : List SqlCmd :=
  .beginTxn :: emitWrites fails (batchWrites heights)

/-- Store semantics of the command stream: BEGIN opens a buffer, writes
accumulate in it, COMMIT flushes it to the committed log, ROLLBACK discards
it. -/
def runCmds (committed : List SqlWrite) (buffer : Option (List SqlWrite)) :
    List SqlCmd → List SqlWrite
  | [] => committed
  | .beginTxn :: rest => runCmds committed (some []) rest
  | .write w :: rest => runCmds committed (buffer.map (· ++ [w])) rest
  | .commitTxn :: rest =>
      match buffer with
      | some b => runCmds (committed ++ b) none rest
      | none => runCmds committed none rest
  | .rollbackTxn :: rest => runCmds committed none rest

/-- Number of BEGIN commands in a stream. -/
def beginCount (cmds : List SqlCmd) : Nat :=
  cmds.countP (fun c => c == SqlCmd.beginTxn)

/-! ## Block rows and the finality flag (`insertBlock`, `insertGraphQLBlock`,
`updateFinalizedBlock` in `midnight-importer.ts`) -/

/-- One row of the `blocks` table (the columns the finality claims touch). -/
structure BlockRow where
  height : Nat
  hash : String
  isFinalized : Bool
deriving Repr, DecidableEq

/-- Upsert into `blocks`, keyed by `height`; the conflict clause overwrites
every column with the incoming values, `is_finalized` included. -/
def upsertBlockByHeight (rows : List BlockRow) (r : BlockRow) : List BlockRow :=
  if rows.any (fun b => b.height == r.height) then
    rows.map (fun b => if b.height == r.height then r else b)
  else rows ++ [r]

/-- The `UPDATE blocks SET is_finalized = TRUE WHERE hash = $1 AND
is_finalized = FALSE` of `updateFinalizedBlock`, row by row. -/
def finalizeRow (hash : String) (b : BlockRow) : BlockRow :=
  if b.hash == hash && b.isFinalized == false then { b with isFinalized := true } else b

/-- The block-level import operations. -/
inductive BlockImportOp where
  | newHeadImport (height : Nat) (hash : String)
  | ledgerImport (height : Nat) (hash : String)
  | finalizedUpdate (hash : String)
deriving Repr, DecidableEq

/-- Applies one import operation to the `blocks` table.  `insertBlock` is fed
by `getBlockData`, which always sets `isFinalized` to false, so a new-head (or
re-)import upserts the row with the flag false; `insertGraphQLBlock` upserts
with the flag true; `updateFinalizedBlock` only flips false to true. -/
def applyBlockImportOp (rows : List BlockRow) : BlockImportOp → List BlockRow
  | .newHeadImport h hs => upsertBlockByHeight rows ⟨h, hs, false⟩
  | .ledgerImport h hs => upsertBlockByHeight rows ⟨h, hs, true⟩
  | .finalizedUpdate hs => rows.map (finalizeRow hs)

/-! ## UTXO resolver (`indexBlock`: the `tx_outputs`/`tx_inputs` queries)

The resolver searches `tx_outputs` joined with `transactions` for a previous
output:
  unshielded — `account_addr = $1 AND asset_id = $2 AND value >= $3 AND
  shielded = false AND NOT EXISTS (SELECT 1 FROM tx_inputs ti WHERE
  ti.prev_output_id = to_out.id) ORDER BY t.timestamp DESC, to_out.id DESC
  LIMIT 1`;
  shielded — `note_commitment = $1 AND shielded = true AND value >= $2` with
  the same exclusion and ordering.
The new `tx_inputs` row is upserted keyed `(tx_id, index)` with
`prev_output_id` set to the match (null when none). -/

/-- One row of `tx_outputs` (joined with its transactions timestamp). -/
structure TxOutput where
  oid : Nat
  txTimestamp : Int
  accountAddr : String
  assetId : String
  value : Int
  shielded : Bool
  noteCommitment : Option String
deriving Repr, DecidableEq

/-- One row of `tx_inputs` (the columns the resolver touches). -/
structure TxInput where
  txId : Nat
  indexInTx : Nat
  prevOutputId : Option Nat
deriving Repr, DecidableEq

/-- The `NOT EXISTS` subquery: is the output already referenced by some
`tx_inputs.prev_output_id`. -/
def isReferenced (inputs : List TxInput) (outputId : Nat) : Bool :=
  inputs.any (fun i => i.prevOutputId == some outputId)

/-- Strict order behind `ORDER BY t.timestamp DESC, to_out.id DESC`: `b` sorts
strictly before `a` in that descending order. -/
def outputKeyLt (a b : TxOutput) : Prop :=
  a.txTimestamp < b.txTimestamp ∨ (a.txTimestamp = b.txTimestamp ∧ a.oid < b.oid)

instance (a b : TxOutput) : Decidable (outputKeyLt a b) := by
  unfold outputKeyLt
  exact inferInstance

/-- Boolean form of `outputKeyLt`. -/
def betterOutput (a b : TxOutput) : Bool :=
  decide (outputKeyLt a b)

/-- One step of scanning the table for the `ORDER BY ... LIMIT 1` row. -/
def pickStep (p : TxOutput → Bool) (acc : Option TxOutput) (o : TxOutput) : Option TxOutput :=
  if p o then
    match acc with
    | none => some o
    | some b => if betterOutput b o then some o else some b
  else acc

/-- `ORDER BY t.timestamp DESC, to_out.id DESC LIMIT 1` over the rows
satisfying the WHERE clause `p`: the greatest eligible row under the key, if
any. -/
def pickBest (p : TxOutput → Bool) (outs : List TxOutput) : Option TxOutput :=
  outs.foldl (pickStep p) none

/-- WHERE clause of the unshielded previous-output search. -/
def unshieldedEligible (inputs : List TxInput) (addr asset : String) (amount : Int)
    (o : TxOutput) : Bool :=
  (o.accountAddr == addr) && (o.assetId == asset) && decide (amount ≤ o.value)
    && (o.shielded == false) && !(isReferenced inputs o.oid)

/-- WHERE clause of the shielded previous-output search (note the
`value >= $2` condition carried over from the unshielded query). -/
def shieldedEligible (inputs : List TxInput) (c : String) (amount : Int)
    (o : TxOutput) : Bool :=
  (o.noteCommitment == some c) && (o.shielded == true) && decide (amount ≤ o.value)
    && !(isReferenced inputs o.oid)

/-- The unshielded previous-output query. -/
def findPrevUnshieldedOutput (outs : List TxOutput) (inputs : List TxInput)
    (addr asset : String) (amount : Int) : Option TxOutput :=
  pickBest (unshieldedEligible inputs addr asset amount) outs

/-- The shielded previous-output query. -/
def findPrevShieldedOutput (outs : List TxOutput) (inputs : List TxInput)
    (c : String) (amount : Int) : Option TxOutput :=
  pickBest (shieldedEligible inputs c amount) outs

/-- The shielded-match rule as the specification words it: exact
note-commitment equality alone with the same not-already-linked exclusion and
no value condition.  Stated for comparison against `shieldedEligible`. -/
def shieldedEligibleSpecNoValue (inputs : List TxInput) (c : String)
    (o : TxOutput) : Bool :=
  (o.noteCommitment == some c) && (o.shielded == true) && !(isReferenced inputs o.oid)

/-- Upsert into `tx_inputs`, keyed by `(tx_id, index)`; the resolver conflict
clause overwrites `prev_output_id`. -/
def upsertInput (inputs : List TxInput) (txId idx : Nat) (ref : Option Nat) : List TxInput :=
  if inputs.any (fun i => i.txId == txId && i.indexInTx == idx) then
    inputs.map (fun i =>
      if i.txId == txId && i.indexInTx == idx then { i with prevOutputId := ref } else i)
  else inputs ++ [⟨txId, idx, ref⟩]

/-- Resolve one unshielded spend: run the previous-output query and persist the
input row pointing at the match (null link when there is none; the search never
raises). -/
def resolveUnshieldedSpend (outs : List TxOutput) (inputs : List TxInput)
    (txId idx : Nat) (addr asset : String) (amount : Int) : List TxInput :=
  upsertInput inputs txId idx
    ((findPrevUnshieldedOutput outs inputs addr asset amount).map TxOutput.oid)

/-- One row of `shielded_notes` (the columns the spend update touches). -/
structure ShieldedNote where
  commitment : String
  assetId : String
  value : Int
  status : Nat
  spentTxId : Option Nat
  spentBlockId : Option Nat
deriving Repr, DecidableEq

/-- The `UPDATE shielded_notes SET spent_tx_id = $1, spent_block_id = $2,
status = 1 WHERE commitment = $3 AND status = 0`, row by row. -/
def markNoteSpentRow (txId blockId : Nat) (c : String) (n : ShieldedNote) : ShieldedNote :=
  if n.commitment == c && n.status == 0 then
    { n with status := 1, spentTxId := some txId, spentBlockId := some blockId }
  else n

/-- The note-spending update over the whole table. -/
def markNoteSpent (notes : List ShieldedNote) (txId blockId : Nat) (c : String) :
    List ShieldedNote :=
  notes.map (markNoteSpentRow txId blockId c)

/-- Resolve one shielded spend: on a match, the input row is linked to the
matched output and the corresponding note is marked spent; on no match, the
input row is still persisted with a null link and the notes are untouched. -/
def resolveShieldedSpend (outs : List TxOutput) (inputs : List TxInput)
    (notes : List ShieldedNote) (txId idx blockId : Nat) (c : String) (amount : Int) :
    List TxInput × List ShieldedNote :=
  match findPrevShieldedOutput outs inputs c amount with
  | some o => (upsertInput inputs txId idx (some o.oid), markNoteSpent notes txId blockId c)
  | none => (upsertInput inputs txId idx none, notes)

/-- The `tx_inputs` upsert of `insertUnshieldedOutput` in
`midnight-importer.ts`: its column list does not include `prev_output_id`, so
an existing row keeps its link and a fresh row gets a null link. -/
def ledgerUpsertInput (inputs : List TxInput) (txId idx : Nat) : List TxInput :=
  if inputs.any (fun i => i.txId == txId && i.indexInTx == idx) then inputs
  else inputs ++ [⟨txId, idx, none⟩]

/-- The store state the import operations touch. -/
structure ImportState where
  outputs : List TxOutput
  inputs : List TxInput
  notes : List ShieldedNote
deriving Repr

/-- The operations any sequence of block imports (re-imports included) performs
on outputs, inputs and notes. -/
inductive ImportOp where
  | createOutput (o : TxOutput)
  | unshieldedSpend (txId idx : Nat) (addr asset : String) (amount : Int)
  | shieldedSpend (txId idx blockId : Nat) (commitment : String) (amount : Int)
  | ledgerInputUpsert (txId idx : Nat)
deriving Repr

/-- Apply one import operation. -/
def applyImportOp (s : ImportState) : ImportOp → ImportState
  | .createOutput o => { s with outputs := s.outputs ++ [o] }
  | .unshieldedSpend txId idx addr asset amount =>
      { s with inputs := resolveUnshieldedSpend s.outputs s.inputs txId idx addr asset amount }
  | .shieldedSpend txId idx blockId c amount =>
      { s with
        inputs := (resolveShieldedSpend s.outputs s.inputs s.notes txId idx blockId c amount).1,
        notes := (resolveShieldedSpend s.outputs s.inputs s.notes txId idx blockId c amount).2 }
  | .ledgerInputUpsert txId idx => { s with inputs := ledgerUpsertInput s.inputs txId idx }

/-- Apply a sequence of import operations. -/
def applyImportOps (s : ImportState) (ops : List ImportOp) : ImportState :=
  ops.foldl applyImportOp s

/-- The empty store. -/
def initialImportState : ImportState := ⟨[], [], []⟩

/-- Pairwise relation: two input rows have distinct `(tx_id, index)` keys and
reference distinct previous outputs unless both links are null. -/
def inputCompat (i1 i2 : TxInput) : Prop :=
  ¬ (i1.txId = i2.txId ∧ i1.indexInTx = i2.indexInTx)
  ∧ ((i1.prevOutputId = none ∧ i2.prevOutputId = none) ∨ i1.prevOutputId ≠ i2.prevOutputId)

/-- Invariant carried through the preservation proof. -/
def inputsInvariant (inputs : List TxInput) : Prop :=
  inputs.Pairwise inputCompat

/-- The at-most-once-spend property of claim C4. -/
def atMostOnceSpend (inputs : List TxInput) : Prop :=
  inputs.Pairwise (fun i1 i2 =>
    (i1.prevOutputId = none ∧ i2.prevOutputId = none) ∨ i1.prevOutputId ≠ i2.prevOutputId)

end MidnightIndexer

namespace MidnightIndexer

/-! ## Lemmas about the previous-output scan -/

lemma outputKeyLt_irrefl (a : TxOutput) : ¬ outputKeyLt a a := by
  simp only [outputKeyLt]
  omega

lemma outputKeyLt_trans_aux1 (b o r : TxOutput) (h1 : outputKeyLt b o)
    (h2 : ¬ outputKeyLt r o) : ¬ outputKeyLt r b := by
  simp only [outputKeyLt] at h1 h2 ⊢
  omega

lemma outputKeyLt_trans_aux2 (b o r : TxOutput) (h1 : ¬ outputKeyLt b o)
    (h2 : ¬ outputKeyLt r b) : ¬ outputKeyLt r o := by
  simp only [outputKeyLt] at h1 h2 ⊢
  omega

lemma pickBest_fold_spec (p : TxOutput → Bool) :
    ∀ (outs : List TxOutput) (acc : Option TxOutput) (r : TxOutput),
      outs.foldl (pickStep p) acc = some r →
      (acc = some r ∨ (r ∈ outs ∧ p r = true))
      ∧ (∀ b, acc = some b → ¬ outputKeyLt r b)
      ∧ (∀ o ∈ outs, p o = true → ¬ outputKeyLt r o) := by
  intro outs
  induction outs with
  | nil =>
      intro acc r h
      simp only [List.foldl_nil] at h
      refine ⟨Or.inl h, ?_, ?_⟩
      · intro b hb
        rw [h] at hb
        injection hb with hb
        subst hb
        exact outputKeyLt_irrefl r
      · intro o ho
        exact absurd ho (List.not_mem_nil o)
  | cons o outs ih =>
      intro acc r h
      simp only [List.foldl_cons] at h
      by_cases hp : p o = true
      · cases acc with
        | none =>
            have hstep : pickStep p none o = some o := by simp [pickStep, hp]
            rw [hstep] at h
            obtain ⟨ih1, ih2, ih3⟩ := ih (some o) r h
            have hro : ¬ outputKeyLt r o := ih2 o rfl
            refine ⟨?_, ?_, ?_⟩
            · rcases ih1 with h1 | h1
              · injection h1 with h1
                subst h1
                exact Or.inr ⟨List.mem_cons_self .., hp⟩
              · exact Or.inr ⟨List.mem_cons_of_mem o h1.1, h1.2⟩
            · intro b hb
              exact absurd hb (by simp)
            · intro x hx hpx
              rcases List.mem_cons.mp hx with hx | hx
              · subst hx
                exact hro
              · exact ih3 x hx hpx
        | some b0 =>
            by_cases hbo : betterOutput b0 o = true
            · have hstep : pickStep p (some b0) o = some o := by simp [pickStep, hp, hbo]
              rw [hstep] at h
              obtain ⟨ih1, ih2, ih3⟩ := ih (some o) r h
              have hro : ¬ outputKeyLt r o := ih2 o rfl
              have hb0o : outputKeyLt b0 o := by simpa [betterOutput] using hbo
              have hrb0 : ¬ outputKeyLt r b0 := outputKeyLt_trans_aux1 b0 o r hb0o hro
              refine ⟨?_, ?_, ?_⟩
              · rcases ih1 with h1 | h1
                · injection h1 with h1
                  subst h1
                  exact Or.inr ⟨List.mem_cons_self .., hp⟩
                · exact Or.inr ⟨List.mem_cons_of_mem o h1.1, h1.2⟩
              · intro b hb
                injection hb with hb
                subst hb
                exact hrb0
              · intro x hx hpx
                rcases List.mem_cons.mp hx with hx | hx
                · subst hx
                  exact hro
                · exact ih3 x hx hpx
            · have hstep : pickStep p (some b0) o = some b0 := by simp [pickStep, hp, hbo]
              rw [hstep] at h
              obtain ⟨ih1, ih2, ih3⟩ := ih (some b0) r h
              have hrb0 : ¬ outputKeyLt r b0 := ih2 b0 rfl
              have hb0o : ¬ outputKeyLt b0 o := by simpa [betterOutput] using hbo
              have hro : ¬ outputKeyLt r o := outputKeyLt_trans_aux2 b0 o r hb0o hrb0
              refine ⟨?_, ?_, ?_⟩
              · rcases ih1 with h1 | h1
                · exact Or.inl h1
                · exact Or.inr ⟨List.mem_cons_of_mem o h1.1, h1.2⟩
              · intro b hb
                injection hb with hb
                subst hb
                exact hrb0
              · intro x hx hpx
                rcases List.mem_cons.mp hx with hx | hx
                · subst hx
                  exact hro
                · exact ih3 x hx hpx
      · have hp2 : p o = false := by simpa using hp
        have hstep : pickStep p acc o = acc := by simp [pickStep, hp2]
        rw [hstep] at h
        obtain ⟨ih1, ih2, ih3⟩ := ih acc r h
        refine ⟨?_, ih2, ?_⟩
        · rcases ih1 with h1 | h1
          · exact Or.inl h1
          · exact Or.inr ⟨List.mem_cons_of_mem o h1.1, h1.2⟩
        · intro x hx hpx
          rcases List.mem_cons.mp hx with hx | hx
          · subst hx
            rw [hpx] at hp2
            cases hp2
          · exact ih3 x hx hpx

lemma pickBest_fold_none (p : TxOutput → Bool) :
    ∀ (outs : List TxOutput) (acc : Option TxOutput),
      outs.foldl (pickStep p) acc = none → acc = none ∧ ∀ o ∈ outs, p o = false := by
  intro outs
  induction outs with
  | nil =>
      intro acc h
      simp only [List.foldl_nil] at h
      exact ⟨h, by simp⟩
  | cons o outs ih =>
      intro acc h
      simp only [List.foldl_cons] at h
      obtain ⟨hstep, hall⟩ := ih _ h
      by_cases hp : p o = true
      · exfalso
        cases acc with
        | none =>
            rw [show pickStep p none o = some o from by simp [pickStep, hp]] at hstep
            cases hstep
        | some b0 =>
            by_cases hbo : betterOutput b0 o = true
            · rw [show pickStep p (some b0) o = some o from by simp [pickStep, hp, hbo]] at hstep
              cases hstep
            · rw [show pickStep p (some b0) o = some b0 from by simp [pickStep, hp, hbo]] at hstep
              cases hstep
      · have hp2 : p o = false := by simpa using hp
        rw [show pickStep p acc o = acc from by simp [pickStep, hp2]] at hstep
        refine ⟨hstep, ?_⟩
        intro x hx
        rcases List.mem_cons.mp hx with hx | hx
        · subst hx
          exact hp2
        · exact hall x hx

lemma pickBest_none_of_all_false (p : TxOutput → Bool) :
    ∀ (outs : List TxOutput) (acc : Option TxOutput), (∀ o ∈ outs, p o = false) →
      outs.foldl (pickStep p) acc = acc := by
  intro outs
  induction outs with
  | nil =>
      intro acc _
      rfl
  | cons o outs ih =>
      intro acc h
      have hpo := h o (List.mem_cons_self ..)
      simp only [List.foldl_cons]
      rw [show pickStep p acc o = acc from by simp [pickStep, hpo]]
      exact ih acc (fun x hx => h x (List.mem_cons_of_mem _ hx))

lemma pickBest_some (p : TxOutput → Bool) (outs : List TxOutput) (r : TxOutput)
    (h : pickBest p outs = some r) :
    r ∈ outs ∧ p r = true ∧ ∀ o ∈ outs, p o = true → ¬ outputKeyLt r o := by
  obtain ⟨h1, _, h3⟩ := pickBest_fold_spec p outs none r h
  rcases h1 with h1 | ⟨hm, hp⟩
  · exact absurd h1 (by simp)
  · exact ⟨hm, hp, h3⟩

lemma pickBest_none_iff (p : TxOutput → Bool) (outs : List TxOutput) :
    pickBest p outs = none ↔ ∀ o ∈ outs, p o = false := by
  constructor
  · intro h
    exact (pickBest_fold_none p outs none h).2
  · intro h
    exact pickBest_none_of_all_false p outs none h

/-! ## Lemmas about the input upsert and the spend invariant -/

lemma isReferenced_false_iff (inputs : List TxInput) (oid : Nat) :
    isReferenced inputs oid = false ↔ ∀ i ∈ inputs, i.prevOutputId ≠ some oid := by
  rw [← Bool.not_eq_true, isReferenced, List.any_eq_true]
  push_neg
  constructor
  · intro h i hi
    have := h i hi
    simpa using this
  · intro h i hi
    simp [h i hi]

lemma upsertInput_mem (inputs : List TxInput) (txId idx : Nat) (ref : Option Nat) :
    ∃ i ∈ upsertInput inputs txId idx ref,
      i.txId = txId ∧ i.indexInTx = idx ∧ i.prevOutputId = ref := by
  unfold upsertInput
  by_cases hany : inputs.any (fun i => i.txId == txId && i.indexInTx == idx) = true
  · rw [if_pos hany]
    rw [List.any_eq_true] at hany
    obtain ⟨j, hj, hjk⟩ := hany
    refine ⟨if j.txId == txId && j.indexInTx == idx then { j with prevOutputId := ref } else j,
      List.mem_map_of_mem _ hj, ?_⟩
    rw [if_pos hjk]
    have hk := hjk
    simp only [Bool.and_eq_true, beq_iff_eq] at hk
    exact ⟨hk.1, hk.2, rfl⟩
  · rw [if_neg hany]
    exact ⟨⟨txId, idx, ref⟩, List.mem_append_right _ (List.mem_singleton.mpr rfl),
      rfl, rfl, rfl⟩

lemma upsertInput_invariant (inputs : List TxInput) (txId idx : Nat) (ref : Option Nat)
    (hinv : inputsInvariant inputs)
    (href : ∀ oid, ref = some oid → isReferenced inputs oid = false) :
    inputsInvariant (upsertInput inputs txId idx ref) := by
  unfold upsertInput
  unfold inputsInvariant at hinv ⊢
  by_cases hany : inputs.any (fun i => i.txId == txId && i.indexInTx == idx) = true
  · rw [if_pos hany]
    rw [List.pairwise_map]
    refine hinv.imp_of_mem ?_
    intro a b ha hb hab
    obtain ⟨habk, habr⟩ := hab
    by_cases hka : (a.txId == txId && a.indexInTx == idx) = true <;>
      by_cases hkb : (b.txId == txId && b.indexInTx == idx) = true
    · exfalso
      simp only [Bool.and_eq_true, beq_iff_eq] at hka hkb
      exact habk ⟨hka.1.trans hkb.1.symm, hka.2.trans hkb.2.symm⟩
    · rw [if_pos hka, if_neg hkb]
      refine ⟨habk, ?_⟩
      cases href2 : ref with
      | none =>
          cases hpb : b.prevOutputId with
          | none => exact Or.inl ⟨rfl, rfl⟩
          | some v => exact Or.inr (by simp)
      | some oid =>
          have hbne := (isReferenced_false_iff inputs oid).mp (href oid href2) b hb
          exact Or.inr (by simpa using hbne.symm)
    · rw [if_neg hka, if_pos hkb]
      refine ⟨habk, ?_⟩
      cases href2 : ref with
      | none =>
          cases hpa : a.prevOutputId with
          | none => exact Or.inl ⟨rfl, rfl⟩
          | some v => exact Or.inr (by simp)
      | some oid =>
          have hane := (isReferenced_false_iff inputs oid).mp (href oid href2) a ha
          exact Or.inr (by simpa using hane)
    · rw [if_neg hka, if_neg hkb]
      exact ⟨habk, habr⟩
  · rw [if_neg hany]
    rw [List.pairwise_append]
    refine ⟨hinv, List.pairwise_singleton _ _, ?_⟩
    intro a ha b hb
    rw [List.mem_singleton] at hb
    subst hb
    constructor
    · rintro ⟨h1, h2⟩
      exact hany (List.any_eq_true.mpr ⟨a, ha, by simp [h1, h2]⟩)
    · cases href2 : ref with
      | none =>
          cases hpa : a.prevOutputId with
          | none => exact Or.inl ⟨rfl, rfl⟩
          | some v => exact Or.inr (by simp)
      | some oid =>
          have hane := (isReferenced_false_iff inputs oid).mp (href oid href2) a ha
          exact Or.inr (by simpa using hane)

lemma applyImportOp_invariant (s : ImportState) (op : ImportOp)
    (hinv : inputsInvariant s.inputs) : inputsInvariant (applyImportOp s op).inputs := by
  cases op with
  | createOutput o => exact hinv
  | unshieldedSpend txId idx addr asset amount =>
      apply upsertInput_invariant _ _ _ _ hinv
      intro oid hoid
      cases hfind : findPrevUnshieldedOutput s.outputs s.inputs addr asset amount with
      | none => rw [hfind] at hoid; cases hoid
      | some r =>
          rw [hfind] at hoid
          have hel := (pickBest_some _ _ _ hfind).2.1
          simp only [unshieldedEligible, Bool.and_eq_true] at hel
          have hrefd : isReferenced s.inputs r.oid = false := by simpa using hel.2
          have hoid2 : r.oid = oid := by simpa using hoid
          rw [← hoid2]
          exact hrefd
  | shieldedSpend txId idx blockId c amount =>
      simp only [applyImportOp]
      cases hfind : findPrevShieldedOutput s.outputs s.inputs c amount with
      | none =>
          simp only [resolveShieldedSpend, hfind]
          apply upsertInput_invariant _ _ _ _ hinv
          intro oid hoid
          cases hoid
      | some r =>
          simp only [resolveShieldedSpend, hfind]
          apply upsertInput_invariant _ _ _ _ hinv
          intro oid hoid
          have hel := (pickBest_some _ _ _ hfind).2.1
          simp only [shieldedEligible, Bool.and_eq_true] at hel
          have hrefd : isReferenced s.inputs r.oid = false := by simpa using hel.2
          injection hoid with hoid
          rw [← hoid]
          exact hrefd
  | ledgerInputUpsert txId idx =>
      simp only [applyImportOp, ledgerUpsertInput]
      by_cases hany : s.inputs.any (fun i => i.txId == txId && i.indexInTx == idx) = true
      · rw [if_pos hany]
        exact hinv
      · rw [if_neg hany]
        have heq : s.inputs ++ [⟨txId, idx, none⟩] = upsertInput s.inputs txId idx none := by
          unfold upsertInput
          rw [if_neg hany]
        rw [heq]
        exact upsertInput_invariant _ _ _ _ hinv (fun oid h => by cases h)

lemma applyImportOps_invariant (ops : List ImportOp) :
    ∀ s : ImportState, inputsInvariant s.inputs →
      inputsInvariant (applyImportOps s ops).inputs := by
  induction ops with
  | nil =>
      intro s h
      exact h
  | cons op ops ih =>
      intro s h
      exact ih (applyImportOp s op) (applyImportOp_invariant s op h)

end MidnightIndexer

namespace MidnightIndexer

/-! ## Claim theorems: UTXO resolution (C4, C5, C6) -/

/-- Claim C4: after any sequence of import operations starting from the empty
store — block imports and re-imports, unshielded and shielded spend
resolutions, and the ledger-side input upserts — no two distinct input rows
reference the same previous output: their `prev_output_id` links differ unless
both are null.  Each resolver query excludes outputs already referenced by any
input, and the keyed upsert replaces rather than duplicates a row. -/
theorem c4_at_most_once_spend (ops : List ImportOp) :
    atMostOnceSpend (applyImportOps initialImportState ops).inputs := by
  have hinv : inputsInvariant (applyImportOps initialImportState ops).inputs :=
    applyImportOps_invariant ops initialImportState List.Pairwise.nil
  exact hinv.imp (fun h => h.2)

/-- A concrete operation sequence: two spends by the same owner compete for the
same outputs, and a ledger upsert re-touches an existing row. -/
def c4DemoOps : List ImportOp :=
  [.createOutput ⟨1, 10, "alice", "MID", 7, false, none⟩,
   .createOutput ⟨2, 20, "alice", "MID", 9, false, none⟩,
   .unshieldedSpend 2 0 "alice" "MID" 5,
   .unshieldedSpend 3 0 "alice" "MID" 5,
   .ledgerInputUpsert 3 0]

/-- Witness for C4 at the concrete operation sequence. -/
theorem c4_witness : atMostOnceSpend (applyImportOps initialImportState c4DemoOps).inputs :=
  c4_at_most_once_spend c4DemoOps

/-- Claim C5: the unshielded resolver returns an output owned by the spending
address with the same asset, value at least the spend amount, not shielded and
not already referenced by any input, and no other such output sorts before it
under (transaction timestamp descending, output id descending); it returns
none exactly when no output qualifies; and in every case the input row is
persisted, keyed `(tx_id, index)`, with its previous-output link equal to the
match (null when there is none) — the resolution never raises. -/
theorem c5_unshielded_match_rule (outs : List TxOutput) (inputs : List TxInput)
    (txId idx : Nat) (addr asset : String) (amount : Int) :
    (∀ r, findPrevUnshieldedOutput outs inputs addr asset amount = some r →
        r ∈ outs ∧ unshieldedEligible inputs addr asset amount r = true
          ∧ ∀ o ∈ outs, unshieldedEligible inputs addr asset amount o = true →
              ¬ outputKeyLt r o)
    ∧ (findPrevUnshieldedOutput outs inputs addr asset amount = none ↔
        ∀ o ∈ outs, unshieldedEligible inputs addr asset amount o = false)
    ∧ (∃ i ∈ resolveUnshieldedSpend outs inputs txId idx addr asset amount,
        i.txId = txId ∧ i.indexInTx = idx
          ∧ i.prevOutputId
              = (findPrevUnshieldedOutput outs inputs addr asset amount).map TxOutput.oid) := by
  refine ⟨?_, ?_, ?_⟩
  · intro r h
    exact pickBest_some _ _ _ h
  · exact pickBest_none_iff _ _
  · exact upsertInput_mem _ _ _ _

/-- Two committed outputs owned by alice; output 2 has the later timestamp. -/
def c5DemoOuts : List TxOutput :=
  [⟨1, 10, "alice", "MID", 7, false, none⟩, ⟨2, 20, "alice", "MID", 9, false, none⟩]

/-- Witness for C5: the spend of 5 by alice links to output 2, the
latest-timestamp eligible output. -/
theorem c5_witness :
    ∃ i ∈ resolveUnshieldedSpend c5DemoOuts [] 9 0 "alice" "MID" 5,
      i.txId = 9 ∧ i.indexInTx = 0 ∧ i.prevOutputId = some 2 := by
  obtain ⟨i, hi, h1, h2, h3⟩ :=
    (c5_unshielded_match_rule c5DemoOuts [] 9 0 "alice" "MID" 5).2.2
  refine ⟨i, hi, h1, h2, ?_⟩
  rw [h3]
  rfl

/-- A shielded output whose commitment matches but whose value 3 is below the
spend amount 5. -/
def c6DemoOutput : TxOutput := ⟨1, 10, "", "MID", 3, true, some "c"⟩

/-- Claim C6 as stated is false at a concrete input: the resolver query carries
a `value >= spend amount` condition, so the shielded output with the exactly
matching commitment but value 3 is not matched for a spend of 5, although the
claimed commitment-equality-alone rule would match it. -/
theorem c6_counterexample :
    findPrevShieldedOutput [c6DemoOutput] [] "c" 5 = none
    ∧ pickBest (shieldedEligibleSpecNoValue [] "c") [c6DemoOutput] = some c6DemoOutput := by
  exact ⟨rfl, rfl⟩

/-- Claim C6, amended: the shielded resolver matches the consumed note by exact
note-commitment equality *together with* the value-at-least-spend-amount
condition carried over from the unshielded query, with the same exclusion of
already-linked outputs; on a match it marks the corresponding shielded note
spent — a transition applied only to rows with the matching commitment that
are still unspent — and stamps the spending transaction and block. -/
theorem c6_amended_shielded_match (outs : List TxOutput) (inputs : List TxInput)
    (notes : List ShieldedNote) (txId idx blockId : Nat) (c : String) (amount : Int) :
    (∀ r, findPrevShieldedOutput outs inputs c amount = some r →
        (r ∈ outs ∧ r.noteCommitment = some c ∧ r.shielded = true ∧ amount ≤ r.value
          ∧ isReferenced inputs r.oid = false)
        ∧ (resolveShieldedSpend outs inputs notes txId idx blockId c amount).2
            = markNoteSpent notes txId blockId c)
    ∧ (findPrevShieldedOutput outs inputs c amount = none →
        (resolveShieldedSpend outs inputs notes txId idx blockId c amount).2 = notes)
    ∧ (∀ n ∈ notes,
        markNoteSpentRow txId blockId c n = n
        ∨ (n.status = 0 ∧ n.commitment = c
            ∧ (markNoteSpentRow txId blockId c n).status = 1
            ∧ (markNoteSpentRow txId blockId c n).spentTxId = some txId
            ∧ (markNoteSpentRow txId blockId c n).spentBlockId = some blockId)) := by
  refine ⟨?_, ?_, ?_⟩
  · intro r h
    obtain ⟨hm, hel, _⟩ := pickBest_some _ _ _ h
    simp only [shieldedEligible, Bool.and_eq_true, beq_iff_eq, decide_eq_true_eq] at hel
    refine ⟨⟨hm, hel.1.1.1, by simpa using hel.1.1.2, hel.1.2, by simpa using hel.2⟩, ?_⟩
    simp [resolveShieldedSpend, h]
  · intro h
    simp [resolveShieldedSpend, h]
  · intro n _
    by_cases hn : (n.commitment == c && n.status == 0) = true
    · have hk := hn
      simp only [Bool.and_eq_true, beq_iff_eq] at hk
      refine Or.inr ⟨hk.2, hk.1, ?_, ?_, ?_⟩ <;> simp [markNoteSpentRow, hn]
    · exact Or.inl (by simp [markNoteSpentRow, hn])

/-- A shielded output and its note, both with commitment d and value 9. -/
def c6WitnessOutput : TxOutput := ⟨1, 10, "", "MID", 9, true, some "d"⟩

/-- The unspent note for commitment d. -/
def c6WitnessNote : ShieldedNote := ⟨"d", "MID", 9, 0, none, none⟩

/-- Witness for the amended C6: the spend of 5 against commitment d matches the
output of value 9 and flips its note to spent. -/
theorem c6_witness :
    (resolveShieldedSpend [c6WitnessOutput] [] [c6WitnessNote] 4 0 3 "d" 5).2
      = markNoteSpent [c6WitnessNote] 4 3 "d" := by
  have h := (c6_amended_shielded_match [c6WitnessOutput] [] [c6WitnessNote] 4 0 3 "d" 5).1
  exact (h c6WitnessOutput rfl).2

/-! ## Event decoding (`indexBlock` amount extraction and
`insertDustLedgerEvents`)

The chain-side extraction loop wraps every event in a try/catch: an event that
cannot be parsed into a known shape contributes nothing to the extracted
fee/amount/flag values, and the transaction row is persisted regardless, with
its raw payload.  The GraphQL dust-event loop, by contrast, throws
"Unknown event type" for an event matching none of the four known typenames,
which aborts the surrounding block transaction. -/

/-- The known chain event shapes the extractor recognizes. -/
inductive ExtractedEvent where
  | transferEvt (sender receiver : String) (amount : Int)
  | withdrawEvt (amount : Int)
  | depositEvt (amount : Int)
  | feePaidEvt (amount : Int)
  | failedEvt
  | succeededEvt
deriving Repr, DecidableEq

/-- The running fee/amount/status values the extractor accumulates. -/
structure ExtractTotals where
  fee : Option Int
  totalInput : Int
  totalOutput : Int
  statusCode : Nat
deriving Repr, DecidableEq

/-- Defaults before any event is seen: no fee, zero totals, status 1. -/
def initialTotals : ExtractTotals := ⟨none, 0, 0, 1⟩

/-- One event of the extraction loop; `none` stands for an event whose parse
failed — the catch clause swallows it and the totals are unchanged. -/
def extractStep (signer : String) (t : ExtractTotals) : Option ExtractedEvent → ExtractTotals
  | none => t
  | some (.transferEvt s _ amt) =>
      { t with
        totalInput := if s == signer then t.totalInput + amt else t.totalInput,
        totalOutput := t.totalOutput + amt }
  | some (.withdrawEvt amt) => { t with totalInput := t.totalInput + amt }
  | some (.depositEvt amt) => { t with totalOutput := t.totalOutput + amt }
  | some (.feePaidEvt amt) => { t with fee := some amt, totalInput := t.totalInput + amt }
  | some .failedEvt => { t with statusCode := 0 }
  | some .succeededEvt => { t with statusCode := 1 }

/-- The extraction loop over the events attached to one extrinsic. -/
def extractTransactionTotals (signer : String)
    (events : List (Option ExtractedEvent)) : ExtractTotals :=
  events.foldl (extractStep signer) initialTotals

/-- The persisted transaction row: the extracted values plus the original raw
event payload. -/
structure PersistedTxRow where
  totals : ExtractTotals
  rawEvents : List (Option ExtractedEvent)
deriving Repr, DecidableEq

/-- Persisting the transaction always succeeds and keeps the raw payload. -/
def persistTransaction (signer : String)
    (events : List (Option ExtractedEvent)) : PersistedTxRow :=
  ⟨extractTransactionTotals signer events, events⟩

/-- A GraphQL dust ledger event: one of the four recognized typenames, or an
event of a shape outside that closed set. -/
inductive DustLedgerEvent where
  | dustGenerationDtimeUpdate (id : Nat) (raw : String)
  | dustInitialUtxo (id : Nat) (raw : String) (outputNonce : Option String)
  | dustSpendProcessed (id : Nat) (raw : String)
  | paramChange (id : Nat) (raw : String)
  | unknownShape (raw : String)
deriving Repr, DecidableEq

/-- One row of `tx_dust_ledger_events`. -/
structure DustEventRow where
  txId : Nat
  indexInTx : Nat
  eventId : Nat
  eventName : String
  eventRaw : String
  outputNonce : Option String
deriving Repr, DecidableEq

/-- The row built for a recognized dust event; none for an unrecognized
shape. -/
def dustEventRowOf (txId idx : Nat) : DustLedgerEvent → Option DustEventRow
  | .dustGenerationDtimeUpdate i raw => some ⟨txId, idx, i, "DustGenerationDtimeUpdate", raw, none⟩
  | .dustInitialUtxo i raw nonce => some ⟨txId, idx, i, "DustInitialUtxo", raw, nonce⟩
  | .dustSpendProcessed i raw => some ⟨txId, idx, i, "DustSpendProcessed", raw, none⟩
  | .paramChange i raw => some ⟨txId, idx, i, "ParamChange", raw, none⟩
  | .unknownShape _ => none

/-- Does the event match one of the four known shapes. -/
def isKnownDustShape : DustLedgerEvent → Bool
  | .unknownShape _ => false
  | _ => true

/-- The loop of `insertDustLedgerEvents`: recognized events produce rows, an
unrecognized event throws "Unknown event type", aborting the whole insert. -/
def insertDustLedgerEventsGo (txId idx : Nat) :
    List DustLedgerEvent → Except String (List DustEventRow)
  | [] => .ok []
  | e :: es =>
      match dustEventRowOf txId idx e with
      | some row =>
          match insertDustLedgerEventsGo txId (idx + 1) es with
          | .ok rows => .ok (row :: rows)
          | .error m => .error m
      | none => .error "Unknown event type"

/-- Embeds `insertDustLedgerEvents` for one transaction. -/
def insertDustLedgerEvents (txId : Nat) (events : List DustLedgerEvent) :
    Except String (List DustEventRow) :=
  insertDustLedgerEventsGo txId 0 events

lemma extract_foldl_filter (signer : String) :
    ∀ (events : List (Option ExtractedEvent)) (t : ExtractTotals),
      events.foldl (extractStep signer) t
        = (events.filter Option.isSome).foldl (extractStep signer) t := by
  intro events
  induction events with
  | nil =>
      intro t
      rfl
  | cons e es ih =>
      intro t
      cases e with
      | none => simpa [List.filter, extractStep] using ih t
      | some v => simp [List.filter, List.foldl_cons, ih]

lemma insertDustGo_ok_iff :
    ∀ (events : List DustLedgerEvent) (txId idx : Nat),
      (∃ rows, insertDustLedgerEventsGo txId idx events = .ok rows)
        ↔ ∀ e ∈ events, isKnownDustShape e = true := by
  intro events
  induction events with
  | nil =>
      intro txId idx
      simp [insertDustLedgerEventsGo]
  | cons e es ih =>
      intro txId idx
      cases he : dustEventRowOf txId idx e with
      | none =>
          have hk : isKnownDustShape e = false := by
            cases e <;> simp_all [dustEventRowOf, isKnownDustShape]
          simp only [insertDustLedgerEventsGo, he]
          constructor
          · rintro ⟨rows, hrows⟩
            cases hrows
          · intro hall
            have := hall e (List.mem_cons_self ..)
            rw [hk] at this
            cases this
      | some row =>
          have hk : isKnownDustShape e = true := by
            cases e <;> simp_all [dustEventRowOf, isKnownDustShape]
          simp only [insertDustLedgerEventsGo, he]
          cases hgo : insertDustLedgerEventsGo txId (idx + 1) es with
          | ok rows =>
              constructor
              · intro _
                intro x hx
                rcases List.mem_cons.mp hx with hx | hx
                · subst hx
                  exact hk
                · exact ((ih txId (idx + 1)).mp ⟨rows, hgo⟩) x hx
              · intro _
                exact ⟨row :: rows, rfl⟩
          | error m =>
              constructor
              · rintro ⟨rows, hrows⟩
                cases hrows
              · intro hall
                have : ∃ rows, insertDustLedgerEventsGo txId (idx + 1) es = .ok rows :=
                  (ih txId (idx + 1)).mpr (fun x hx => hall x (List.mem_cons_of_mem _ hx))
                rw [hgo] at this
                obtain ⟨rows, hrows⟩ := this
                cases hrows

/-- Claim C7 as stated is false at a concrete input: a dust ledger event whose
shape matches none of the four known typenames makes `insertDustLedgerEvents`
raise "Unknown event type" instead of being swallowed — the error propagates
and aborts the surrounding block transaction. -/
theorem c7_counterexample :
    insertDustLedgerEvents 1 [.dustInitialUtxo 3 "raw1" none, .unknownShape "raw2"]
      = .error "Unknown event type" := by
  rfl

/-- Claim C7, amended: in the chain-side extractor a parse failure on an
individual event is swallowed — it contributes nothing to the extracted
amounts, fee or flags — and the transaction is always persisted with whatever
was extracted plus its original raw payload; however the GraphQL dust-event
insert succeeds exactly when every event matches one of the four known shapes,
and an unrecognized dust event raises an error that aborts the surrounding
block transaction. -/
theorem c7_amended_decode_failures (signer : String) (events : List (Option ExtractedEvent))
    (txId : Nat) (devents : List DustLedgerEvent) :
    extractTransactionTotals signer events
      = extractTransactionTotals signer (events.filter Option.isSome)
    ∧ (persistTransaction signer events).rawEvents = events
    ∧ ((∃ rows, insertDustLedgerEvents txId devents = .ok rows)
        ↔ ∀ e ∈ devents, isKnownDustShape e = true) := by
  refine ⟨?_, rfl, ?_⟩
  · exact extract_foldl_filter signer events initialTotals
  · exact insertDustGo_ok_iff devents txId 0

/-- Witness for the amended C7: an unparseable event among the chain events
changes nothing, and a dust-event list of known shapes inserts cleanly. -/
theorem c7_witness :
    extractTransactionTotals "s" [none, some (.depositEvt 5)]
      = extractTransactionTotals "s" [some (.depositEvt 5)]
    ∧ (∃ rows, insertDustLedgerEvents 1 [.paramChange 2 "raw"] = .ok rows) := by
  have h := c7_amended_decode_failures "s" [none, some (.depositEvt 5)] 1 [.paramChange 2 "raw"]
  refine ⟨?_, ?_⟩
  · rw [h.1]
    rfl
  · exact h.2.2.mpr (by decide)

end MidnightIndexer

namespace MidnightIndexer

/-! ## Claim theorems (first group) -/

/-- Claim C1: re-importing the same block is supposed to leave the persisted
snapshot value unchanged (the snapshot being the preceding snapshot plus this
blocks net movement).  Evaluating the embedded balance update at the failing
input refutes this: an inbound movement of 5 at block 2 for account 1 yields
snapshot 5 on the first import, but on the second import the previous-balance
query (ordered by `block_id` descending, with no bound) reads this very
snapshot back and stores 10. -/
theorem c1_balance_double_count :
    latestBalance (updateAccountBalance [] 1 2 1 5) 1 "MID" = 5
    ∧ latestBalance (updateAccountBalance (updateAccountBalance [] 1 2 1 5) 1 2 1 5) 1 "MID" = 10 := by
  constructor
  · rfl
  · rfl

/-- Claim C8: the scenario block with one "swap" contract call and two token
balances of distinct token types.  Evaluating the embedding: exactly one
contract-action row (kind call, entry point swap) is produced, but only ONE
contract-balance row survives, because the upsert key `(action, type_name)`
uses the constant GraphQL typename "ContractBalance", so the second token
balance overwrites the first instead of creating a second row. -/
theorem c8_contract_balance_collapse :
    (insertContractActions [] [] 1 [swapAction]).1
      = [⟨1, 1, 0, "ContractCall", some "swap", "addr1"⟩]
    ∧ (insertContractActions [] [] 1 [swapAction]).2
      = [⟨1, "ContractBalance", "tokenB", 20⟩] := by
  constructor
  · rfl
  · rfl

/-- Claim C9: `getBlockByHeight` returns null on every error, so a transport or
GraphQL failure is reported identically to the block not existing, and the
finalized-head handler takes the same retry-queue action in both cases. -/
theorem c9_error_indistinguishable_from_missing :
    ∀ e : String,
      getBlockByHeightResult (.error e) = none
      ∧ getBlockByHeightResult (.ok none) = none
      ∧ finalizedHandlerStep (getBlockByHeightResult (.error e))
          = finalizedHandlerStep (getBlockByHeightResult (.ok none)) := by
  intro e
  exact ⟨rfl, rfl, rfl⟩

/-- Claim C10: the min/max height helpers return 0 both on an empty table and
when the stored extreme is genuinely 0, and gap detection returns without
scanning whenever either extreme reads 0; in particular a store containing
height 0 is never gap-checked. -/
theorem c10_zero_height_short_circuit :
    (getMinBlockHeight [] = 0 ∧ getMaxBlockHeight [] = 0)
    ∧ (∀ hs, sqlMaxHeight hs = some 0 → getMaxBlockHeight hs = 0)
    ∧ (∀ hs, sqlMinHeight hs = some 0 → getMinBlockHeight hs = 0)
    ∧ (∀ hs, getMinBlockHeight hs = 0 ∨ getMaxBlockHeight hs = 0 → detectMissingScan hs = none)
    ∧ (∀ hs, 0 ∈ hs → detectMissingScan hs = none) := by
  refine ⟨⟨rfl, rfl⟩, ?_, ?_, ?_, ?_⟩
  · intro hs h
    simp [getMaxBlockHeight, h]
  · intro hs h
    simp [getMinBlockHeight, h]
  · intro hs h
    rcases h with h | h <;> simp [detectMissingScan, h]
  · intro hs h
    have hmin : getMinBlockHeight hs = 0 := by
      have hzero : sqlMinHeight hs = some 0 := by
        have hgen : ∀ (acc : Option Nat) (l : List Nat), 0 ∈ l ∨ acc = some 0 →
            l.foldl (fun acc h =>
              match acc with
              | none => some h
              | some m => some (min m h)) acc = some 0 ∨
            ∃ m, l.foldl (fun acc h =>
              match acc with
              | none => some h
              | some m => some (min m h)) acc = some m ∧ m = 0 := by
          intro acc l
          induction l generalizing acc with
          | nil =>
              intro hmem
              rcases hmem with hmem | hmem
              · simp at hmem
              · exact Or.inl hmem
          | cons x xs ih =>
              intro hmem
              rcases hmem with hmem | hmem
              · rcases List.mem_cons.mp hmem with hx | hx
                · subst hx
                  apply ih
                  right
                  cases acc with
                  | none => rfl
                  | some m => simp
                · exact ih _ (Or.inl hx)
              · subst hmem
                apply ih
                right
                simp
        have := hgen none hs (Or.inl h)
        rcases this with h1 | ⟨m, h1, h2⟩
        · simpa [sqlMinHeight] using h1
        · subst h2
          simpa [sqlMinHeight] using h1
      simp [getMinBlockHeight, hzero]
    simp [detectMissingScan, hmin]

/-- Witness for C9: a concrete timeout error is handled exactly like a missing
block. -/
theorem c9_witness :
    getBlockByHeightResult (.error "timeout") = none
    ∧ getBlockByHeightResult (.ok none) = none
    ∧ finalizedHandlerStep (getBlockByHeightResult (.error "timeout"))
        = finalizedHandlerStep (getBlockByHeightResult (.ok none)) :=
  c9_error_indistinguishable_from_missing "timeout"

/-- Witness for C10: the concrete store holding heights 0, 2, 5 (a gap at 1,
3, 4) is never gap-checked because its minimum height is 0. -/
theorem c10_witness : (0 : Nat) ∈ [0, 2, 5] ∧ detectMissingScan [0, 2, 5] = none := by
  refine ⟨by decide, ?_⟩
  exact c10_zero_height_short_circuit.2.2.2.2 [0, 2, 5] (by decide)

/-! ## Claim theorems: batch transaction boundaries (C2) -/

lemma beginCount_emitWrites (fails : SqlWrite → Bool) :
    ∀ ws : List SqlWrite, beginCount (emitWrites fails ws) = 0 := by
  intro ws
  induction ws with
  | nil => rfl
  | cons w ws ih =>
      by_cases hw : fails w = true
      · simp [emitWrites, hw, beginCount]
      · simp only [emitWrites, Bool.not_eq_true] at hw ⊢
        rw [hw]
        simp only [beginCount, List.countP_cons] at ih ⊢
        simp [ih]

lemma runCmds_emitWrites (fails : SqlWrite → Bool) :
    ∀ (ws committed buf : List SqlWrite),
      runCmds committed (some buf) (emitWrites fails ws)
        = if ws.all (fun w => !fails w) then committed ++ (buf ++ ws) else committed := by
  intro ws
  induction ws with
  | nil =>
      intro committed buf
      simp [emitWrites, runCmds]
  | cons w ws ih =>
      intro committed buf
      by_cases hw : fails w = true
      · simp [emitWrites, hw, runCmds]
      · simp only [Bool.not_eq_true] at hw
        have h1 : emitWrites fails (w :: ws) = .write w :: emitWrites fails ws := by
          simp [emitWrites, hw]
        rw [h1]
        have h2 : runCmds committed (some buf) (.write w :: emitWrites fails ws)
            = runCmds committed (some (buf ++ [w])) (emitWrites fails ws) := rfl
        rw [h2, ih]
        simp [hw, List.all_cons, List.append_assoc]

/-- Claim C2 as stated is false: importing the two-block batch [1, 2] issues a
single BEGIN (one store transaction for the whole batch, not one per block),
and a store failure during the second blocks writes rolls back the first
blocks writes as well, leaving nothing committed. -/
theorem c2_counterexample :
    beginCount (processBatchCmds [1, 2] (fun _ => false)) = 1
    ∧ ¬ beginCount (processBatchCmds [1, 2] (fun _ => false)) = 2
    ∧ runCmds [] none (processBatchCmds [1, 2] (fun w => w == SqlWrite.ledgerBlockWrite 2)) = [] := by
  refine ⟨by rfl, by decide, by rfl⟩

/-- Claim C2, amended: each *batch* of blocks (a single block being the
one-element batch of `processBlock`) is applied as exactly one store
transaction — BEGIN, every blocks upserts in order, COMMIT — and any store
failure mid-batch rolls back the entire batchs unit, leaving all of its
heights uncommitted so a restart redoes the whole batch. -/
theorem c2_amended_batch_atomicity (heights : List Nat) (fails : SqlWrite → Bool)
    (committed : List SqlWrite) :
    beginCount (processBatchCmds heights fails) = 1
    ∧ ((∀ w ∈ batchWrites heights, fails w = false) →
        runCmds committed none (processBatchCmds heights fails)
          = committed ++ batchWrites heights)
    ∧ ((∃ w ∈ batchWrites heights, fails w = true) →
        runCmds committed none (processBatchCmds heights fails) = committed) := by
  refine ⟨?_, ?_, ?_⟩
  · have h := beginCount_emitWrites fails (batchWrites heights)
    simp only [processBatchCmds, beginCount, List.countP_cons] at h ⊢
    simp [h]
  · intro hok
    have hall : (batchWrites heights).all (fun w => !fails w) = true := by
      rw [List.all_eq_true]
      intro w hw
      simp [hok w hw]
    simp only [processBatchCmds, runCmds]
    rw [runCmds_emitWrites]
    simp [hall]
  · intro hbad
    obtain ⟨w, hw, hfw⟩ := hbad
    have hall : (batchWrites heights).all (fun w => !fails w) = false := by
      rw [List.all_eq_false]
      exact ⟨w, hw, by simp [hfw]⟩
    simp only [processBatchCmds, runCmds]
    rw [runCmds_emitWrites]
    simp [hall]

/-- Witness for the amended C2: the failure-free two-block batch commits all
four writes in its single transaction. -/
theorem c2_witness :
    runCmds [] none (processBatchCmds [1, 2] (fun _ => false)) = batchWrites [1, 2] := by
  have h := (c2_amended_batch_atomicity [1, 2] (fun _ => false) []).2.1 (by decide)
  simpa using h

/-! ## Claim theorems: block finality flag (C3) -/

lemma upsertBlockByHeight_mem_height (rows : List BlockRow) (r b : BlockRow)
    (hb : b ∈ rows) : ∃ c ∈ upsertBlockByHeight rows r, c.height = b.height := by
  unfold upsertBlockByHeight
  by_cases hany : rows.any (fun x => x.height == r.height) = true
  · rw [if_pos hany]
    refine ⟨if b.height == r.height then r else b, List.mem_map_of_mem _ hb, ?_⟩
    by_cases hbr : b.height == r.height
    · simp only [hbr, if_true]
      exact (beq_iff_eq.mp hbr).symm
    · simp [hbr]
  · rw [if_neg hany]
    exact ⟨b, List.mem_append_left _ hb, rfl⟩

lemma upsertBlockByHeight_mem_self (rows : List BlockRow) (r : BlockRow) :
    ∃ c ∈ upsertBlockByHeight rows r, c = r := by
  unfold upsertBlockByHeight
  by_cases hany : rows.any (fun x => x.height == r.height) = true
  · rw [if_pos hany]
    rw [List.any_eq_true] at hany
    obtain ⟨b, hb, hbr⟩ := hany
    exact ⟨if b.height == r.height then r else b, List.mem_map_of_mem _ hb, by simp [hbr]⟩
  · rw [if_neg hany]
    exact ⟨r, List.mem_append_right _ (List.mem_singleton.mpr rfl), rfl⟩

/-- Claim C3 as stated is false at a concrete input: the blocks table holds the
finalized row for height 5, and a new-head (re-)import of that height — which
upserts the chain-derived data whose finality flag is always false — resets the
rows finality flag from true back to false. -/
theorem c3_counterexample :
    applyBlockImportOp [⟨5, "aa", true⟩] (.newHeadImport 5 "aa") = [⟨5, "aa", false⟩] := by
  rfl

/-- Claim C3, amended: blocks are never deleted by any import operation, and
`updateFinalizedBlock` mutates only the finality flag and only from false to
true; however the `insertBlock` upsert overwrites the flag with the incoming
value — false for chain-derived data, true for ledger-derived data — so a
new-head re-import of an already-finalized height resets its flag to false. -/
theorem c3_amended_finality_flag (rows : List BlockRow) :
    (∀ hash, applyBlockImportOp rows (.finalizedUpdate hash) = rows.map (finalizeRow hash)
      ∧ ∀ b ∈ rows, (finalizeRow hash b).height = b.height
          ∧ (finalizeRow hash b).hash = b.hash
          ∧ (finalizeRow hash b).isFinalized = (b.isFinalized || b.hash == hash))
    ∧ (∀ op : BlockImportOp, ∀ b ∈ rows, ∃ c ∈ applyBlockImportOp rows op, c.height = b.height)
    ∧ (∀ h hs, ∃ c ∈ applyBlockImportOp rows (.newHeadImport h hs),
        c = ⟨h, hs, false⟩) := by
  refine ⟨?_, ?_, ?_⟩
  · intro hash
    refine ⟨rfl, ?_⟩
    intro b _
    cases hb : (b.hash == hash) <;> cases hf : b.isFinalized <;>
      simp [finalizeRow, hb, hf]
  · intro op b hb
    cases op with
    | newHeadImport h hs => exact upsertBlockByHeight_mem_height rows _ b hb
    | ledgerImport h hs => exact upsertBlockByHeight_mem_height rows _ b hb
    | finalizedUpdate hs =>
        exact ⟨finalizeRow hs b, List.mem_map_of_mem _ hb, by
          cases hbh : (b.hash == hs) <;> cases hf : b.isFinalized <;>
            simp [finalizeRow, hbh, hf]⟩
  · intro h hs
    exact upsertBlockByHeight_mem_self rows _

/-- Witness for the amended C3: on the empty table a new-head import of height
2 creates its row with the finality flag false. -/
theorem c3_witness :
    ∃ c ∈ applyBlockImportOp [] (.newHeadImport 2 "bb"), c = ⟨2, "bb", false⟩ :=
  (c3_amended_finality_flag []).2.2 2 "bb"

end MidnightIndexer
